import Mathlib

/-!
Verification development for the auto-mock-tools mock-serving engine.

This file gives a shallow embedding of the storage, codec, scenario and
handler logic of the repository:

* byte-level helpers (`trimSpaceASCII`, `equalFoldBytes`, `toLowerASCIISimple`)
  from `pkg/storage` and `pkg/handlers`;
* the record codec `parseMockRecord` (operating on the generic JSON tree
  produced by `json.Unmarshal`, modelled by `JValue`);
* the index (`makeIndexKey`, `loadStorage`, `FindResponseBytes`);
* the scenario loader and matcher (`applyDelayOverride`, `loadScenarioConfig`,
  `MatchScenarioResponse`);
* the mock HTTP handler (`handlerLookup`, `MockHandler`).

Go byte slices and strings are both modelled as `List Nat` of byte values;
`float64` fields are modelled as exact rationals.  Library functions external
to the repository (`url.Parse`, `encoding/base64`, `compress/gzip`,
`json.Unmarshal`/`json.Marshal`) are abstracted as oracle parameters in
`ExternalFns`.  The Unicode-aware Go helpers `strings.ToLower`,
`strings.ToUpper` and `strings.TrimSpace` are modelled on the ASCII byte
domain (header names, methods and media types are ASCII).
-/

/-- Go byte slices and strings are modelled as lists of byte values. -/
abbrev Bytes := List Nat

/-- ASCII lower-casing of a single byte, as in the loops of
`equalFoldBytes` and `toLowerASCIISimple` (pkg/storage). -/
def lowerByte (c : Nat) : Nat := if 65 ≤ c ∧ c ≤ 90 then c + 32 else c

/-- ASCII upper-casing of a single byte (models `strings.ToUpper` on the
ASCII domain, used for scenario methods). -/
def upperByte (c : Nat) : Nat := if 97 ≤ c ∧ c ≤ 122 then c - 32 else c

/-- Model of `toLowerASCIISimple` (pkg/storage): byte-wise ASCII lower-casing.
Also used to model `strings.ToLower` on the ASCII domain. -/
def toLowerASCIISimple (s : Bytes) : Bytes := s.map lowerByte

/-- Byte-wise ASCII upper-casing of a byte string. -/
def toUpperASCII (s : Bytes) : Bytes := s.map upperByte

/-- Model of `equalFoldBytes` (pkg/storage): case-insensitive comparison of
two byte slices, byte by byte after ASCII lower-casing, equal lengths
required. -/
def equalFoldBytes : Bytes → Bytes → Bool
  | [], [] => true
  | a :: as, b :: bs => lowerByte a == lowerByte b && equalFoldBytes as bs
  | _, _ => false

/-- The whitespace byte set of `trimSpaceASCII` (space, tab, CR, LF). -/
def isSpaceASCII (c : Nat) : Bool := c == 32 || c == 9 || c == 13 || c == 10

/-- The ASCII part of Go's `unicode.IsSpace` set, used to model
`strings.TrimSpace` (adds vertical tab and form feed). -/
def isSpaceGo (c : Nat) : Bool :=
  c == 32 || c == 9 || c == 10 || c == 11 || c == 12 || c == 13

/-- Drop bytes satisfying `p` from the end of `s`. -/
def trimRightWith (p : Nat → Bool) (s : Bytes) : Bytes :=
  (s.reverse.dropWhile p).reverse

/-- Trim bytes satisfying `p` from both ends: first the leading run, then the
trailing run of what remains, exactly as the two loops of `trimSpaceASCII`. -/
def trimWith (p : Nat → Bool) (s : Bytes) : Bytes :=
  trimRightWith p (s.dropWhile p)

/-- Model of `trimSpaceASCII` (pkg/storage and pkg/handlers): trim space,
tab, CR, LF from both ends. -/
def trimSpaceASCII (s : Bytes) : Bytes := trimWith isSpaceASCII s

/-- Model of `strings.TrimSpace` restricted to the ASCII byte domain. -/
def trimSpaceGo (s : Bytes) : Bytes := trimWith isSpaceGo s

/-- The prefix of `s` before the first semicolon byte; models
`bytes.IndexByte(s, ';')` followed by slicing (`FindResponseBytes`), and
`strings.Split(s, ";")[0]` (the codec). -/
def beforeSemicolon (s : Bytes) : Bytes := s.takeWhile (fun c => c != 59)

/-- The content-type normalization performed inline by `FindResponseBytes`:
strip the parameter part after `;`, then trim ASCII whitespace. -/
def normalizeCT (s : Bytes) : Bytes := trimSpaceASCII (beforeSemicolon s)

/-- Byte encoding of the ASCII text: request -/
def keyRequest : Bytes := [114, 101, 113, 117, 101, 115, 116]

/-- Byte encoding of the ASCII text: response -/
def keyResponse : Bytes := [114, 101, 115, 112, 111, 110, 115, 101]

/-- Byte encoding of the ASCII text: url -/
def keyUrl : Bytes := [117, 114, 108]

/-- Byte encoding of the ASCII text: headers -/
def keyHeaders : Bytes := [104, 101, 97, 100, 101, 114, 115]

/-- Byte encoding of the ASCII text: method -/
def keyMethod : Bytes := [109, 101, 116, 104, 111, 100]

/-- Byte encoding of the ASCII text: status_code -/
def keyStatusCode : Bytes := [115, 116, 97, 116, 117, 115, 95, 99, 111, 100, 101]

/-- Byte encoding of the ASCII text: request_id -/
def keyRequestID : Bytes := [114, 101, 113, 117, 101, 115, 116, 95, 105, 100]

/-- Byte encoding of the ASCII text: body -/
def keyBody : Bytes := [98, 111, 100, 121]

/-- Byte encoding of the ASCII text: delay -/
def keyDelay : Bytes := [100, 101, 108, 97, 121]

/-- Byte encoding of the ASCII text: elapsed_seconds -/
def keyElapsedSeconds : Bytes :=
  [101, 108, 97, 112, 115, 101, 100, 95, 115, 101, 99, 111, 110, 100, 115]

/-- Byte encoding of the ASCII text: data -/
def keyData : Bytes := [100, 97, 116, 97]

/-- Byte encoding of the ASCII text: timestamp -/
def keyTimestamp : Bytes := [116, 105, 109, 101, 115, 116, 97, 109, 112]

/-- Byte encoding of the ASCII text: x-mock-id -/
def xMockIDBytes : Bytes := [120, 45, 109, 111, 99, 107, 45, 105, 100]

/-- Byte encoding of the ASCII text: content-type -/
def contentTypeKey : Bytes := [99, 111, 110, 116, 101, 110, 116, 45, 116, 121, 112, 101]

/-- Byte encoding of the ASCII text: content-encoding -/
def contentEncodingKey : Bytes :=
  [99, 111, 110, 116, 101, 110, 116, 45, 101, 110, 99, 111, 100, 105, 110, 103]

/-- Byte encoding of the ASCII text: gzip -/
def gzipBytes : Bytes := [103, 122, 105, 112]

/-- Byte encoding of the ASCII text: application/json -/
def appJsonBytes : Bytes :=
  [97, 112, 112, 108, 105, 99, 97, 116, 105, 111, 110, 47, 106, 115, 111, 110]

/-- Byte encoding of the ASCII text: text/event-stream -/
def eventStreamBytes : Bytes :=
  [116, 101, 120, 116, 47, 101, 118, 101, 110, 116, 45, 115, 116, 114, 101, 97, 109]

/-- Byte encoding of the ASCII text: [DONE] -/
def doneBytes : Bytes := [91, 68, 79, 78, 69, 93]

/-- Byte encoding of the ASCII text: data:(space) -/
def sseDataPfx : Bytes := [100, 97, 116, 97, 58, 32]

/-- Byte encoding of two newline characters. -/
def sseDataSfx : Bytes := [10, 10]

/-- Byte encoding of the ASCII text: GET -/
def getBytes : Bytes := [71, 69, 84]

/-- Byte encoding of the ASCII text: / -/
def slashBytes : Bytes := [47]

/-- Byte encoding of the ASCII text: asterisk slash asterisk -/
def acceptAnyBytes : Bytes := [42, 47, 42]

/-- Byte encoding of the ASCII text: default -/
def defaultMockIDBytes : Bytes := [100, 101, 102, 97, 117, 108, 116]

/-- Byte encoding of the JSON error body served on a 404 miss. -/
def errorNotFound : Bytes :=
  [123, 34, 101, 114, 114, 111, 114, 34, 58, 34, 78, 111, 32, 109, 111, 99,
   107, 32, 102, 111, 117, 110, 100, 34, 125]

/-- Byte encoding of the ASCII text: connection -/
def hdrConnection : Bytes := [99, 111, 110, 110, 101, 99, 116, 105, 111, 110]

/-- Byte encoding of the ASCII text: keep-alive -/
def hdrKeepAlive : Bytes := [107, 101, 101, 112, 45, 97, 108, 105, 118, 101]

/-- Byte encoding of the ASCII text: proxy-authenticate -/
def hdrProxyAuthenticate : Bytes :=
  [112, 114, 111, 120, 121, 45, 97, 117, 116, 104, 101, 110, 116, 105, 99, 97, 116, 101]

/-- Byte encoding of the ASCII text: proxy-authorization -/
def hdrProxyAuthorization : Bytes :=
  [112, 114, 111, 120, 121, 45, 97, 117, 116, 104, 111, 114, 105, 122, 97, 116, 105, 111, 110]

/-- Byte encoding of the ASCII text: te -/
def hdrTE : Bytes := [116, 101]

/-- Byte encoding of the ASCII text: trailers -/
def hdrTrailers : Bytes := [116, 114, 97, 105, 108, 101, 114, 115]

/-- Byte encoding of the ASCII text: transfer-encoding -/
def hdrTransferEncoding : Bytes :=
  [116, 114, 97, 110, 115, 102, 101, 114, 45, 101, 110, 99, 111, 100, 105, 110, 103]

/-- Byte encoding of the ASCII text: upgrade -/
def hdrUpgrade : Bytes := [117, 112, 103, 114, 97, 100, 101]

/-- Byte encoding of the ASCII text: content-length -/
def hdrContentLength : Bytes :=
  [99, 111, 110, 116, 101, 110, 116, 45, 108, 101, 110, 103, 116, 104]

/-- Generic JSON value, the shape produced by `json.Unmarshal` into
`map[string]interface{}` / `interface{}`: `null`, booleans, numbers
(`float64`, modelled as exact rationals), strings, arrays and objects. -/
inductive JValue where
  | null
  | bool (b : Bool)
  | num (q : ℚ)
  | str (s : Bytes)
  | arr (elems : List JValue)
  | obj (fields : List (Bytes × JValue))

/-- The object fields of a `JValue`, when it is an object; models the Go
type assertion `v.(map[string]interface{})`. -/
def asObj : JValue → Option (List (Bytes × JValue))
  | .obj fields => some fields
  | _ => none

/-- Models the Go type assertion `v.(string)`. -/
def asStr : JValue → Option Bytes
  | .str s => some s
  | _ => none

/-- Models the Go type assertion `v.(float64)` (all JSON numbers decode to
`float64`). -/
def asNum : JValue → Option ℚ
  | .num q => some q
  | _ => none

/-- Lookup in a decoded JSON object (a Go map access `m[k]`): the first
field with the given key. -/
def lookupJ (fields : List (Bytes × JValue)) (k : Bytes) : Option JValue :=
  (fields.find? (fun kv => kv.1 == k)).map (fun kv => kv.2)

/-- Lookup in a byte-string-valued map (a Go `map[string]string` access). -/
def lookupB (m : List (Bytes × Bytes)) (k : Bytes) : Option Bytes :=
  (m.find? (fun kv => kv.1 == k)).map (fun kv => kv.2)

/-- Model of `SSEEvent` (pkg/storage): one SSE event with its decoded data,
its timestamp in seconds and the pre-serialized data bytes. -/
structure SSEEvent where
  data : JValue
  timestamp : ℚ
  serializedData : Bytes

/-- Model of `MockResponse` (pkg/storage): a stored mock response with
pre-serialized body.  Go `string` and `[]byte` fields are both `Bytes`;
`float64` is ℚ. -/
structure MockResponse where
  requestID : Bytes
  path : Bytes
  method : Bytes
  methodBytes : Bytes
  mockID : Bytes
  contentType : Bytes
  statusCode : Int
  headers : List (Bytes × Bytes)
  headerKeysLower : List (Bytes × Bytes)
  body : Bytes
  originalBody : JValue
  fullURL : Bytes
  delay : ℚ
  sseEvents : List SSEEvent
  isSSE : Bool

/-- Truncation of a rational toward zero, the semantics of the Go
conversion `int(f)` for a `float64` status code. -/
def truncQ (q : ℚ) : Int := q.num.tdiv (q.den : Int)

/-- Oracles for library functionality external to the repository.
`urlParse` models `url.Parse(urlStr)` followed by `.Path` (`none` is a parse
error); `base64Decode` models `base64.StdEncoding.DecodeString`; `gunzip`
models `gzip.NewReader` plus `io.ReadAll` (`none` covers a failure of
either); `jsonUnmarshal` and `jsonMarshal` model `encoding/json`. -/
structure ExternalFns where
  urlParse : Bytes → Option Bytes
  base64Decode : Bytes → Option Bytes
  gunzip : Bytes → Option Bytes
  jsonUnmarshal : Bytes → Option JValue
  jsonMarshal : JValue → Option Bytes

/-- The mock-id resolution of `parseMockRecord`: if `request.headers`
(case-insensitively) contains `x-mock-id` with a non-empty string value,
use it; otherwise use the caller-supplied fallback. -/
def resolveMockID (requestData : List (Bytes × JValue)) (fallbackMockID : Bytes) : Bytes :=
  match (lookupJ requestData keyHeaders).bind asObj with
  | some headers =>
    let headersLower :=
      headers.foldl (fun m kv => (toLowerASCIISimple kv.1, kv.2) :: m) []
    match (lookupJ headersLower xMockIDBytes).bind asStr with
    | some id => if id ≠ [] then id else fallbackMockID
    | none => fallbackMockID
  | none => fallbackMockID

/-- The string-valued response headers with original-case keys, built by the
codec's loop over `response.headers` (non-string values are skipped).
Insertion into a Go map is modelled by prepending, so that `lookupB` sees the
last write for a key. -/
def headerStrPairs (headers : List (Bytes × JValue)) : List (Bytes × Bytes) :=
  headers.foldl
    (fun m kv => match kv.2 with | .str s => (kv.1, s) :: m | _ => m) []

/-- The same headers keyed by their lower-cased names
(`responseHeadersLower` in the codec). -/
def headerLowerPairs (headers : List (Bytes × JValue)) : List (Bytes × Bytes) :=
  headers.foldl
    (fun m kv =>
      match kv.2 with
      | .str s => (toLowerASCIISimple kv.1, s) :: m
      | _ => m) []

/-- The codec's content-type resolution: take the lower-cased `content-type`
header, strip the `;` parameter part and trim whitespace when it is
non-empty, default to `application/json` otherwise. -/
def codecContentType (responseHeadersLower : List (Bytes × Bytes)) : Bytes :=
  let contentType := (lookupB responseHeadersLower contentTypeKey).getD []
  if contentType ≠ [] then trimSpaceGo (beforeSemicolon contentType)
  else appJsonBytes

/-- The codec's gzip passthrough (lines 76-96 of the codec): when the
response carries `Content-Encoding: gzip` and the body is a non-empty
string, attempt base64-decode, then gunzip, then JSON-parse.  A base64 or
gunzip failure leaves the body unchanged; after a successful gunzip, the
parsed JSON — or, if parsing fails, the decompressed bytes as a string —
replaces the body. -/
def decodeGzipBody (ext : ExternalFns) (responseHeadersLower : List (Bytes × Bytes))
    (body : JValue) : JValue :=
  match body with
  | .str bodyStr =>
    if bodyStr ≠ [] ∧ (lookupB responseHeadersLower contentEncodingKey).getD [] = gzipBytes then
      match ext.base64Decode bodyStr with
      | none => .str bodyStr
      | some bodyBytes =>
        match ext.gunzip bodyBytes with
        | none => .str bodyStr
        | some decompressed =>
          match ext.jsonUnmarshal decompressed with
          | some jsonBody => jsonBody
          | none => .str decompressed
    else .str bodyStr
  | other => other

/-- One event's contribution to the concatenated SSE body: the `data` field
serialized between the `data: ` and blank-line markers, with the `[DONE]`
sentinel emitted unquoted; events without a usable payload contribute
nothing (the codec's `continue`). -/
def sseChunk (ext : ExternalFns) (event : JValue) : Bytes :=
  match event with
  | .obj eventMap =>
    match lookupJ eventMap keyData with
    | some eventData =>
      match eventData with
      | .str s =>
        if s = doneBytes then sseDataPfx ++ doneBytes ++ sseDataSfx
        else
          match ext.jsonMarshal (.str s) with
          | some eventJSON => sseDataPfx ++ eventJSON ++ sseDataSfx
          | none => []
      | other =>
        match ext.jsonMarshal other with
        | some eventJSON => sseDataPfx ++ eventJSON ++ sseDataSfx
        | none => []
    | none => []
  | other =>
    match ext.jsonMarshal other with
    | some eventJSON => sseDataPfx ++ eventJSON ++ sseDataSfx
    | none => []

/-- The codec's body materialization: for `text/event-stream` an array body
becomes the concatenated `data:` stream and a string body is used verbatim
(anything else leaves the bytes empty); otherwise strings become their
bytes and every other value is marshalled (a marshal error aborts the
parse). -/
def materializeBody (ext : ExternalFns) (contentType : Bytes) (body : JValue) :
    Option Bytes :=
  if contentType = eventStreamBytes then
    match body with
    | .arr events => some ((events.map (sseChunk ext)).flatten)
    | .str s => some s
    | _ => some []
  else
    match body with
    | .str s => some s
    | other => ext.jsonMarshal other

/-- One entry of `sseEvents`: for an object element carrying a `data` field,
the timestamp (defaulting to 0) and the serialized data (with the unquoted
`[DONE]` sentinel; a marshal error leaves the bytes empty).  Other elements
produce no event. -/
def sseEventOf (ext : ExternalFns) (eventItem : JValue) : Option SSEEvent :=
  match eventItem with
  | .obj eventMap =>
    match lookupJ eventMap keyData with
    | some eventData =>
      let timestamp := ((lookupJ eventMap keyTimestamp).bind asNum).getD 0
      let serializedData :=
        match eventData with
        | .str s => if s = doneBytes then doneBytes else (ext.jsonMarshal (.str s)).getD []
        | other => (ext.jsonMarshal other).getD []
      some ⟨eventData, timestamp, serializedData⟩
    | none => none
  | _ => none

/-- The `sseEvents` list of the codec: populated only for
`text/event-stream` records whose (gzip-decoded) body is an array, from the
elements accepted by `sseEventOf`, in order. -/
def buildSSEEvents (ext : ExternalFns) (isSSE : Bool) (body : JValue) : List SSEEvent :=
  if isSSE then
    match body with
    | .arr events => events.filterMap (sseEventOf ext)
    | _ => []
  else []

/-- The decoded `response.headers` object (empty when absent or not an
object). -/
def codecRespHeaders (responseData : List (Bytes × JValue)) : List (Bytes × JValue) :=
  ((lookupJ responseData keyHeaders).bind asObj).getD []

/-- The codec's normalized content-type for a response. -/
def codecCT (responseData : List (Bytes × JValue)) : Bytes :=
  codecContentType (headerLowerPairs (codecRespHeaders responseData))

/-- The response body value after the gzip passthrough. -/
def codecBodyValue (ext : ExternalFns) (responseData : List (Bytes × JValue)) : JValue :=
  decodeGzipBody ext (headerLowerPairs (codecRespHeaders responseData))
    ((lookupJ responseData keyBody).getD .null)

/-- The codec's status-code resolution: the Go conversion `int(sc)` when
`response.status_code` is a number, else the default 200. -/
def codecStatusCode (responseData : List (Bytes × JValue)) : Int :=
  match (lookupJ responseData keyStatusCode).bind asNum with
  | some sc => truncQ sc
  | none => 200

/-- The codec's delay resolution: `response.delay` when numeric, else the
legacy `response.elapsed_seconds`, else 0. -/
def codecDelay (responseData : List (Bytes × JValue)) : ℚ :=
  match (lookupJ responseData keyDelay).bind asNum with
  | some d => d
  | none =>
    match (lookupJ responseData keyElapsedSeconds).bind asNum with
    | some elapsed => elapsed
    | none => 0

/-- Model of `parseMockRecord` (the record codec), applied to the JSON tree
decoded from one record file.  `none` models every error return: missing or
non-object `request`/`response`, a URL parse error, or a body marshal
error. -/
def parseMockRecord (ext : ExternalFns) (record : JValue) (fallbackMockID : Bytes) :
    Option MockResponse :=
  match asObj record with
  | none => none
  | some fields =>
  match (lookupJ fields keyRequest).bind asObj with
  | none => none
  | some requestData =>
  match (lookupJ fields keyResponse).bind asObj with
  | none => none
  | some responseData =>
  match ext.urlParse (((lookupJ requestData keyUrl).bind asStr).getD []) with
  | none => none
  | some parsedPath =>
  match materializeBody ext (codecCT responseData) (codecBodyValue ext responseData) with
  | none => none
  | some bodyBytes =>
  let urlStr := ((lookupJ requestData keyUrl).bind asStr).getD []
  let path := if parsedPath = [] then slashBytes else parsedPath
  let mockID := resolveMockID requestData fallbackMockID
  let responseHeadersStr := headerStrPairs (codecRespHeaders responseData)
  let contentType := codecCT responseData
  let body := codecBodyValue ext responseData
  let method0 := ((lookupJ requestData keyMethod).bind asStr).getD []
  let method := if method0 = [] then getBytes else method0
  let headerKeysLower :=
    responseHeadersStr.foldl (fun m kv => (toLowerASCIISimple kv.1, kv.1) :: m) []
  let isSSE := contentType = eventStreamBytes
  some
    { requestID := ((lookupJ requestData keyRequestID).bind asStr).getD []
      path := path
      method := method
      methodBytes := method
      mockID := mockID
      contentType := contentType
      statusCode := codecStatusCode responseData
      headers := responseHeadersStr
      headerKeysLower := headerKeysLower
      body := bodyBytes
      originalBody := body
      fullURL := urlStr
      delay := codecDelay responseData
      sseEvents := buildSSEEvents ext isSSE body
      isSSE := isSSE }

/-- Append `x` to the bucket of `key` in an association-list model of a Go
map whose values are slices (`m[key] = append(m[key], x)`). -/
def assocAppend {α : Type} : List (Bytes × List α) → Bytes → α → List (Bytes × List α)
  | [], key, x => [(key, [x])]
  | (k, xs) :: rest, key, x =>
    if k = key then (k, xs ++ [x]) :: rest
    else (k, xs) :: assocAppend rest key x

/-- Map probe (`xs, ok := m[key]`) in the association-list model. -/
def assocFind? {α : Type} : List (Bytes × List α) → Bytes → Option (List α)
  | [], _ => none
  | (k, xs) :: rest, key => if k = key then some xs else assocFind? rest key

/-- Model of `makeIndexKey` / `makeIndexKeyFromBytes` (pkg/storage): the
composite key `path | mockID | contentType` with a literal pipe byte as
separator. -/
def makeIndexKey (path mockID contentType : Bytes) : Bytes :=
  path ++ [124] ++ mockID ++ [124] ++ contentType

/-- The index key under which a record is registered at load time. -/
def recordKey (r : MockResponse) : Bytes :=
  makeIndexKey r.path r.mockID r.contentType

/-- A compiled scenario (`mockScenario` in pkg/storage/scenario.go).  The
compiled `jsonfilter` operator is modelled by its evaluation function on
body bytes (`Evaluate(body).Match`); `none` is a nil operator. -/
structure MockScenario where
  name : Bytes
  path : Bytes
  method : Bytes
  methodBytes : Bytes
  filter : Option (Bytes → Bool)
  response : MockResponse

/-- Model of `MockStorage` (pkg/storage): the directory index plus timing
and scenario configuration. -/
structure MockStorage where
  responses : List (Bytes × List MockResponse)
  replayTiming : Bool
  jitter : ℚ
  scenariosEnabled : Bool
  scenarioByPath : List (Bytes × List MockScenario)
  scenarioOrder : List MockScenario

/-- The indexing step of `loadResponses`: every successfully parsed record,
in file-system encounter order, is appended to the bucket of its composite
key.  Directory walking and file I/O are outside the embedding; `records`
is the list of codec outputs. -/
def loadStorage (records : List MockResponse) : MockStorage :=
  { responses :=
      records.foldl (fun idx r => assocAppend idx (recordKey r) r) []
    replayTiming := false
    jitter := 0
    scenariosEnabled := false
    scenarioByPath := []
    scenarioOrder := [] }

/-- Model of `FindResponseBytes` (pkg/storage): normalize the content-type
inline (strip `;` parameters, trim ASCII whitespace), probe the index with
the composite key, and return the first candidate — filtered by
case-insensitive method comparison when a method is supplied. -/
def FindResponseBytes (s : MockStorage)
    (pathBytes mockIDBytes contentTypeBytes methodBytes : Bytes) :
    Option MockResponse :=
  let ct := normalizeCT contentTypeBytes
  match assocFind? s.responses (makeIndexKey pathBytes mockIDBytes ct) with
  | none => none
  | some candidates =>
    if candidates.isEmpty then none
    else if methodBytes.isEmpty then candidates.head?
    else candidates.find? (fun c => equalFoldBytes c.methodBytes methodBytes)

/-- Model of `HasScenarios` (pkg/storage/scenario.go). -/
def HasScenarios (s : MockStorage) : Bool := s.scenariosEnabled

/-- One scenario definition after YAML decoding, with the external pieces
already resolved: `responseRecord` is the codec's output for
`response.file` (loaded with the scenario name as fallback mock-id) and
`filterBody` is the compiled, validated `jsonfilter` operator for a
non-empty `filter.body` (`none` when absent). -/
structure ScenarioDef where
  name : Bytes
  method : Bytes
  path : Bytes
  filterBody : Option (Bytes → Bool)
  responseRecord : MockResponse
  delayOverride : Option ℚ

/-- The delay-override step of `LoadScenarioConfig` (scenario.go lines
94-110): for an SSE record with events and a positive previous delay,
rescale every event timestamp by `newDelay / oldDelay`; in every case
replace the record's delay. -/
def applyDelayOverride (r : MockResponse) : Option ℚ → MockResponse
  | none => r
  | some newDelay =>
    let rescaled :=
      if r.isSSE && !r.sseEvents.isEmpty && decide (0 < r.delay) then
        let scale := newDelay / r.delay
        { r with sseEvents :=
            r.sseEvents.map (fun e => { e with timestamp := e.timestamp * scale }) }
      else r
    { rescaled with delay := newDelay }

/-- The per-scenario body of the `LoadScenarioConfig` loop: validate the
trimmed name and path, apply the delay override, resolve the method
(scenario method, else the record's method, else GET, upper-cased), and
overwrite the record's identity fields with the scenario's values. -/
def loadScenarioOne (sdef : ScenarioDef) : Option MockScenario :=
  let name := trimSpaceGo sdef.name
  if name = [] then none
  else
    let path := trimSpaceGo sdef.path
    if path = [] then none
    else
      let resp0 := applyDelayOverride sdef.responseRecord sdef.delayOverride
      let method1 := toUpperASCII (trimSpaceGo sdef.method)
      let method2 := if method1 = [] then toUpperASCII resp0.method else method1
      let method := if method2 = [] then getBytes else method2
      let resp :=
        { resp0 with
            path := path
            fullURL := path
            method := method
            methodBytes := method
            mockID := name }
      some
        { name := name, path := path, method := method, methodBytes := method,
          filter := sdef.filterBody, response := resp }

/-- Model of `LoadScenarioConfig` (scenario.go): reject an empty scenario
list, process every scenario in declaration order (any per-scenario
validation failure rejects the whole config), and enable scenario routing
with the by-path map and the declaration-order list populated together.
File reading and YAML decoding are outside the embedding; `sdefs` is the
decoded scenario list. -/
def LoadScenarioConfig (s : MockStorage) (sdefs : List ScenarioDef) :
    Option MockStorage :=
  if sdefs.isEmpty then none
  else
    match sdefs.mapM loadScenarioOne with
    | none => none
    | some scenarios =>
      some
        { s with
            scenariosEnabled := true
            scenarioOrder := scenarios
            scenarioByPath :=
              scenarios.foldl (fun m sc => assocAppend m sc.path sc) [] }

/-- The method-mismatch skip of the `MatchScenarioResponse` loop: skip when
both method byte strings are non-empty and differ case-insensitively. -/
def methodSkip (sc : MockScenario) (methodBytes : Bytes) : Bool :=
  !sc.methodBytes.isEmpty && !methodBytes.isEmpty &&
    !equalFoldBytes sc.methodBytes methodBytes

/-- The predicate check of the `MatchScenarioResponse` loop: a nil filter
matches any body, otherwise evaluate the compiled operator on the body. -/
def filterAccepts (sc : MockScenario) (body : Bytes) : Bool :=
  match sc.filter with
  | some f => f body
  | none => true

/-- A scenario survives the `MatchScenarioResponse` loop iff it is not
skipped on method and its filter accepts the body. -/
def scenarioMatches (sc : MockScenario) (methodBytes body : Bytes) : Bool :=
  !methodSkip sc methodBytes && filterAccepts sc body

/-- Model of `MatchScenarioResponse` (scenario.go): with scenarios enabled,
walk the scenarios registered for the exact request path in declaration
order and return the response of the first that matches. -/
def MatchScenarioResponse (s : MockStorage) (pathBytes methodBytes body : Bytes) :
    Option MockResponse :=
  if !s.scenariosEnabled then none
  else
    let scenarios := (assocFind? s.scenarioByPath pathBytes).getD []
    if scenarios.isEmpty then none
    else
      (scenarios.find? (fun sc => scenarioMatches sc methodBytes body)).map
        (fun sc => sc.response)

/-- Modelled from the spec: the definition of `FindResponseBytesAnyContentType`
is not among the provided sources — only its tests
(`TestFindResponseBytesAnyContentType`) and its caller in `MockHandler`
are.  Spec 4.B: "Scans all index entries and returns the first whose path
and mock-id match (method-filtered when supplied)." -/
def FindResponseBytesAnyContentType (s : MockStorage)
    (pathBytes mockIDBytes methodBytes : Bytes) : Option MockResponse :=
  ((s.responses.map (fun kv => kv.2)).flatten).find?
    (fun r =>
      r.path == pathBytes && r.mockID == mockIDBytes &&
        (methodBytes.isEmpty || equalFoldBytes r.methodBytes methodBytes))

/-- The excluded response-header names of `excludeHeadersLower`
(pkg/handlers): hop-by-hop, encoding and internal headers. -/
def excludeHeadersList : List Bytes :=
  [hdrConnection, hdrKeepAlive, hdrProxyAuthenticate, hdrProxyAuthorization,
   hdrTE, hdrTrailers, hdrTransferEncoding, hdrUpgrade, contentEncodingKey,
   hdrContentLength, xMockIDBytes]

/-- Membership in the excluded-header set (`excludeHeadersLower[name]`). -/
def excludeHeadersLower (name : Bytes) : Bool :=
  excludeHeadersList.contains name

/-- The mock request data the handler reads: path, method and body from the
request line, plus the two relevant headers.  `fasthttp`'s `Peek` returns
nil for an absent header, so absence is the empty byte string. -/
structure Request where
  path : Bytes
  method : Bytes
  postBody : Bytes
  xMockID : Bytes
  accept : Bytes

/-- The observable response the handler assembles: status code, the headers
copied from the record, the content-type fallback (`none` when the copied
headers already set one) and the body bytes.  Delay and jitter sleeps are
real-time effects outside the embedding. -/
structure HTTPResponse where
  statusCode : Int
  headerOps : List (Bytes × Bytes)
  contentType : Option Bytes
  body : Bytes

/-- The record-selection phase of `MockHandler` (handlers.go lines
121-146): scenario matching when scenarios are active; otherwise the
header-based lookup with the `x-mock-id` default, the `Accept` handling
(absent → `application/json`; `*/*` → any content-type; otherwise the
first media type, cut at `,` and `;` and trimmed). -/
def handlerLookup (store : MockStorage) (req : Request) : Option MockResponse :=
  if HasScenarios store then
    MatchScenarioResponse store req.path req.method req.postBody
  else
    let mockIDBytes := if req.xMockID.isEmpty then defaultMockIDBytes else req.xMockID
    if req.accept.isEmpty then
      FindResponseBytes store req.path mockIDBytes appJsonBytes req.method
    else if req.accept = acceptAnyBytes then
      FindResponseBytesAnyContentType store req.path mockIDBytes req.method
    else
      let acceptBytes := req.accept.takeWhile (fun c => c != 44)
      let acceptBytes := acceptBytes.takeWhile (fun c => c != 59)
      FindResponseBytes store req.path mockIDBytes (trimSpaceASCII acceptBytes) req.method

/-- The header-copy loop of `MockHandler` (handlers.go lines 183-191): every
entry of the pre-computed lower-case key table whose lower-cased name is
not excluded is copied, under its original name, with its recorded
value. -/
def copiedHeaders (r : MockResponse) : List (Bytes × Bytes) :=
  r.headerKeysLower.filterMap
    (fun kv =>
      if excludeHeadersLower kv.1 then none
      else some (kv.2, (lookupB r.headers kv.2).getD []))

/-- Whether the header-copy loop set a content-type (`contentTypeSet` in
`MockHandler`). -/
def contentTypeWasSet (r : MockResponse) : Bool :=
  r.headerKeysLower.any (fun kv => !excludeHeadersLower kv.1 && kv.1 == contentTypeKey)

/-- Model of `MockHandler` (pkg/handlers): select a record, answer a JSON
404 on a miss, otherwise assemble status, headers and body.  The SSE
streaming branch is modelled by the byte stream it writes (its pacing and
the writer pool are real-time effects outside the embedding). -/
def MockHandler (store : MockStorage) (req : Request) : HTTPResponse :=
  match handlerLookup store req with
  | none =>
    { statusCode := 404
      headerOps := []
      contentType := some appJsonBytes
      body := errorNotFound }
  | some r =>
    { statusCode := r.statusCode
      headerOps := copiedHeaders r
      contentType :=
        if contentTypeWasSet r then none
        else if r.contentType ≠ [] then some r.contentType
        else some appJsonBytes
      body :=
        if r.isSSE && !r.sseEvents.isEmpty && store.replayTiming then
          (r.sseEvents.map (fun e => sseDataPfx ++ e.serializedData ++ sseDataSfx)).flatten
        else r.body }

/-- Predicate: every pre-computed lower-case header key is the ASCII
lower-casing of its original key — the invariant the codec establishes for
`headerKeysLower` and scenario loading preserves. -/
def HeadersWF (r : MockResponse) : Prop :=
  ∀ kv ∈ r.headerKeysLower, kv.1 = toLowerASCIISimple kv.2

/-- The larger of two rationals, written so that it evaluates by
comparison (the lattice `max` of ℚ does not kernel-reduce). -/
def qmax (a b : ℚ) : ℚ := if a ≤ b then b else a

/-- The largest event timestamp of an SSE event list (0 when empty). -/
def maxTimestamp (events : List SSEEvent) : ℚ :=
  (events.map (fun e => e.timestamp)).foldr qmax 0

/-- A record at the lookup tuple of `C1_find_first_loaded_record`'s witness. -/
def sampleResp : MockResponse :=
  { requestID := []
    path := slashBytes
    method := getBytes
    methodBytes := getBytes
    mockID := defaultMockIDBytes
    contentType := appJsonBytes
    statusCode := 200
    headers := []
    headerKeysLower := []
    body := [97]
    originalBody := .null
    fullURL := slashBytes
    delay := 0
    sseEvents := []
    isSSE := false }

/-- A first record, loaded before `cexRespB` under the same composite key
and method. -/
def cexRespA : MockResponse :=
  { sampleResp with body := [97], statusCode := 200 }

/-- A second record with the same path, mock-id, content-type and method as
`cexRespA` but a different body and status code. -/
def cexRespB : MockResponse :=
  { sampleResp with body := [98], statusCode := 500 }

/-- An SSE event fixture with a given timestamp. -/
def sseSampleEvent (t : ℚ) : SSEEvent :=
  { data := .null, timestamp := t, serializedData := [] }

/-- An SSE record fixture: five events at 0.1 .. 0.5 seconds and a recorded
delay of 5 seconds, the shape of the repository's delay-override test
data. -/
def sseResp : MockResponse :=
  { sampleResp with
      contentType := eventStreamBytes
      isSSE := true
      delay := 5
      sseEvents :=
        [sseSampleEvent (1/10), sseSampleEvent (2/10), sseSampleEvent (3/10),
         sseSampleEvent (4/10), sseSampleEvent (5/10)] }

/-- A scenario definition fixture on the root path with no filter. -/
def sampleScenarioDef : ScenarioDef :=
  { name := defaultMockIDBytes, method := getBytes, path := slashBytes,
    filterBody := none, responseRecord := sampleResp, delayOverride := none }

/-- The storage produced by loading the single fixture scenario. -/
def scenStore : MockStorage :=
  (LoadScenarioConfig (loadStorage []) [sampleScenarioDef]).getD (loadStorage [])

/-- The compiled fixture scenario. -/
def sampleScenario : MockScenario :=
  (loadScenarioOne sampleScenarioDef).getD
    { name := [], path := [], method := [], methodBytes := [], filter := none,
      response := sampleResp }

/-- Byte encoding of the ASCII text: x-custom -/
def hdrXCustomLower : Bytes := [120, 45, 99, 117, 115, 116, 111, 109]

/-- Byte encoding of the ASCII text: X-Custom -/
def hdrXCustomOrig : Bytes := [88, 45, 67, 117, 115, 116, 111, 109]

/-- A record fixture carrying one copyable response header. -/
def headeredResp : MockResponse :=
  { sampleResp with
      headers := [(hdrXCustomOrig, [118])]
      headerKeysLower := [(hdrXCustomLower, hdrXCustomOrig)] }

/-- A plain request fixture for the root path with no headers. -/
def plainReq : Request :=
  { path := slashBytes, method := getBytes, postBody := [], xMockID := [],
    accept := [] }

/-- A request fixture with the accept-any header. -/
def anyReq : Request :=
  { plainReq with accept := acceptAnyBytes }

/-- A request fixture with x-mock-id and Accept headers, used to show that
scenario mode ignores both. -/
def headeredScenReq : Request :=
  { plainReq with xMockID := [97], accept := appJsonBytes }

/-- Oracles for witnesses: URL parsing is the identity on paths; the
decoding oracles always fail; marshalling yields empty bytes. -/
def trivExt : ExternalFns :=
  { urlParse := fun s => some s
    base64Decode := fun _ => none
    gunzip := fun _ => none
    jsonUnmarshal := fun _ => none
    jsonMarshal := fun _ => some [] }

/-- An event-stream record whose body is a plain string: the codec marks it
as SSE but produces no events. -/
def sseStringRecord : JValue :=
  .obj
    [(keyRequest, .obj [(keyUrl, .str slashBytes)]),
     (keyResponse, .obj
       [(keyHeaders, .obj [(contentTypeKey, .str eventStreamBytes)]),
        (keyBody, .str [104])])]

/-- The codec output for `sseStringRecord`. -/
def cexParsedC5 : MockResponse :=
  (parseMockRecord trivExt sseStringRecord defaultMockIDBytes).getD sampleResp

/-- The top-level fields of a record with `request` and `response` present
but no method and no status code. -/
def defaultsFields : List (Bytes × JValue) :=
  [(keyRequest, .obj [(keyUrl, .str slashBytes)]),
   (keyResponse, .obj [])]

/-- A record with `request` and `response` present but no method and no
status code. -/
def defaultsRecord : JValue := .obj defaultsFields

/-- The codec output for `defaultsRecord`. -/
def parsedDefaults : MockResponse :=
  (parseMockRecord trivExt defaultsRecord defaultMockIDBytes).getD sampleResp

/-- Byte encoding of the ASCII text: nope -/
def nopeBytes : Bytes := [110, 111, 112, 101]

/-- Byte encoding of the ASCII text: abc -/
def abcBytes : Bytes := [97, 98, 99]

/-- Oracles driving the gzip chain into the JSON-parse failure arm:
base64-decode and gunzip succeed (gunzip yields `nopeBytes`), JSON parsing
fails. -/
def gzExtCex : ExternalFns :=
  { urlParse := fun s => some s
    base64Decode := fun _ => some [1]
    gunzip := fun _ => some nopeBytes
    jsonUnmarshal := fun _ => none
    jsonMarshal := fun _ => some [] }

/-- Oracles on which the whole gzip chain succeeds. -/
def gzExtOk : ExternalFns :=
  { urlParse := fun s => some s
    base64Decode := fun _ => some [2]
    gunzip := fun _ => some [3]
    jsonUnmarshal := fun _ => some (.bool true)
    jsonMarshal := fun _ => some [] }

/-- A lower-cased response-header map declaring gzip content-encoding. -/
def gzHdrsLower : List (Bytes × Bytes) := [(contentEncodingKey, gzipBytes)]

theorem equalFoldBytes_refl (s : Bytes) : equalFoldBytes s s = true := by
  induction s with
  | nil => rfl
  | cons a t ih => simp [equalFoldBytes, ih]

theorem dropWhile_prepend (p : Nat → Bool) (s : Bytes) :
    ∃ d, s = d ++ s.dropWhile p := by
  induction s with
  | nil => exact ⟨[], rfl⟩
  | cons a t ih =>
    by_cases h : p a
    · obtain ⟨d, hd⟩ := ih
      exact ⟨a :: d, by simp [List.dropWhile_cons, h, ← hd]⟩
    · exact ⟨[], by simp [List.dropWhile_cons, h]⟩

theorem dropWhile_head_false (p : Nat → Bool) (s : Bytes) (a : Nat) (t : Bytes)
    (h : s.dropWhile p = a :: t) : p a = false := by
  induction s with
  | nil => simp at h
  | cons b s ih =>
    rw [List.dropWhile_cons] at h
    by_cases hb : p b
    · rw [if_pos hb] at h
      exact ih h
    · rw [if_neg hb] at h
      cases h
      exact Bool.eq_false_iff.mpr hb

theorem dropWhile_dropWhile (pa pg : Nat → Bool)
    (himp : ∀ c, pa c = true → pg c = true) (s : Bytes) :
    (s.dropWhile pg).dropWhile pa = s.dropWhile pg := by
  induction s with
  | nil => rfl
  | cons a t ih =>
    rw [List.dropWhile_cons]
    by_cases h : pg a
    · rw [if_pos h]
      exact ih
    · have ha : pa a = false := by
        cases hpa : pa a
        · rfl
        · exact absurd (himp a hpa) h
      rw [if_neg h, List.dropWhile_cons, ha]
      simp

theorem trimRightWith_trimRightWith (pa pg : Nat → Bool)
    (himp : ∀ c, pa c = true → pg c = true) (s : Bytes) :
    trimRightWith pa (trimRightWith pg s) = trimRightWith pg s := by
  unfold trimRightWith
  rw [List.reverse_reverse, dropWhile_dropWhile pa pg himp]

theorem dropWhile_trimRight_dropWhile (pa pg : Nat → Bool)
    (himp : ∀ c, pa c = true → pg c = true) (s : Bytes) :
    (trimRightWith pg (s.dropWhile pg)).dropWhile pa
      = trimRightWith pg (s.dropWhile pg) := by
  obtain ⟨d, hd⟩ := dropWhile_prepend pg (s.dropWhile pg).reverse
  cases ht : ((s.dropWhile pg).reverse.dropWhile pg).reverse with
  | nil => simp [trimRightWith, ht]
  | cons a t =>
    have hu2 : s.dropWhile pg = a :: (t ++ d.reverse) := by
      have hsplit : s.dropWhile pg
          = ((s.dropWhile pg).reverse.dropWhile pg).reverse ++ d.reverse := by
        conv_lhs => rw [← List.reverse_reverse (s.dropWhile pg), hd]
        rw [List.reverse_append]
      rw [hsplit, ht]
      simp
    have hfa : pg a = false := dropWhile_head_false pg s a (t ++ d.reverse) hu2
    have hfa' : pa a = false := by
      cases hpa : pa a
      · rfl
      · exact absurd (himp a hpa) (by simp [hfa])
    show (((s.dropWhile pg).reverse.dropWhile pg).reverse).dropWhile pa
        = ((s.dropWhile pg).reverse.dropWhile pg).reverse
    rw [ht, List.dropWhile_cons, hfa']
    simp

theorem trimWith_trimWith (pa pg : Nat → Bool)
    (himp : ∀ c, pa c = true → pg c = true) (s : Bytes) :
    trimWith pa (trimWith pg s) = trimWith pg s := by
  unfold trimWith
  rw [dropWhile_trimRight_dropWhile pa pg himp s,
      trimRightWith_trimRightWith pa pg himp]

theorem isSpaceASCII_imp_isSpaceGo (c : Nat) :
    isSpaceASCII c = true → isSpaceGo c = true := by
  intro h
  simp only [isSpaceASCII, Bool.or_eq_true, beq_iff_eq] at h
  simp only [isSpaceGo, Bool.or_eq_true, beq_iff_eq]
  omega

theorem trimSpaceASCII_trimSpaceGo (s : Bytes) :
    trimSpaceASCII (trimSpaceGo s) = trimSpaceGo s :=
  trimWith_trimWith isSpaceASCII isSpaceGo isSpaceASCII_imp_isSpaceGo s

theorem trimSpaceASCII_idem (s : Bytes) :
    trimSpaceASCII (trimSpaceASCII s) = trimSpaceASCII s :=
  trimWith_trimWith isSpaceASCII isSpaceASCII (fun _ h => h) s

theorem mem_trimWith (p : Nat → Bool) (s : Bytes) (a : Nat)
    (h : a ∈ trimWith p s) : a ∈ s := by
  unfold trimWith trimRightWith at h
  rw [List.mem_reverse] at h
  have h2 := (List.dropWhile_sublist p).subset h
  rw [List.mem_reverse] at h2
  exact (List.dropWhile_sublist p).subset h2

theorem beforeSemicolon_of_noSemi (s : Bytes) (h : ∀ a ∈ s, a ≠ 59) :
    beforeSemicolon s = s := by
  unfold beforeSemicolon
  rw [List.takeWhile_eq_self_iff]
  intro x hx
  simpa using h x hx

theorem normalizeCT_idem (s : Bytes) :
    normalizeCT (normalizeCT s) = normalizeCT s := by
  unfold normalizeCT
  rw [beforeSemicolon_of_noSemi (trimSpaceASCII (beforeSemicolon s))
      (fun a ha => by
        have hmem := mem_trimWith isSpaceASCII (beforeSemicolon s) a ha
        have := List.mem_takeWhile_imp hmem
        simpa using this),
      trimSpaceASCII_idem]

theorem normalizeCT_trimGo_beforeSemi (s : Bytes) :
    normalizeCT (trimSpaceGo (beforeSemicolon s)) = trimSpaceGo (beforeSemicolon s) := by
  unfold normalizeCT
  rw [beforeSemicolon_of_noSemi (trimSpaceGo (beforeSemicolon s))
      (fun a ha => by
        have hmem := mem_trimWith isSpaceGo (beforeSemicolon s) a ha
        have := List.mem_takeWhile_imp hmem
        simpa using this),
      trimSpaceASCII_trimSpaceGo]

theorem normalizeCT_appJson : normalizeCT appJsonBytes = appJsonBytes := by decide

/-- The content-type produced by the codec is a fixed point of the
lookup-side normalization of `FindResponseBytes`. -/
theorem codecContentType_normalized (responseHeadersLower : List (Bytes × Bytes)) :
    normalizeCT (codecContentType responseHeadersLower)
      = codecContentType responseHeadersLower := by
  unfold codecContentType
  by_cases h : (lookupB responseHeadersLower contentTypeKey).getD [] ≠ []
  · rw [if_pos h]
    exact normalizeCT_trimGo_beforeSemi _
  · rw [if_neg h]
    exact normalizeCT_appJson

theorem assocFind?_assocAppend_same {α : Type} (m : List (Bytes × List α))
    (key : Bytes) (x : α) :
    assocFind? (assocAppend m key x) key
      = some ((assocFind? m key).getD [] ++ [x]) := by
  induction m with
  | nil => simp [assocAppend, assocFind?]
  | cons kv rest ih =>
    obtain ⟨k, xs⟩ := kv
    by_cases h : k = key
    · simp [assocAppend, assocFind?, h]
    · simp [assocAppend, assocFind?, h, ih]

theorem assocFind?_assocAppend_ne {α : Type} (m : List (Bytes × List α))
    (key key' : Bytes) (x : α) (h : key' ≠ key) :
    assocFind? (assocAppend m key x) key' = assocFind? m key' := by
  have h' : ¬ key = key' := fun hk => h hk.symm
  induction m with
  | nil => simp [assocAppend, assocFind?, h']
  | cons kv rest ih =>
    obtain ⟨k, xs⟩ := kv
    by_cases hk : k = key
    · subst hk
      simp [assocAppend, assocFind?, h']
    · by_cases hk' : k = key'
      · subst hk'
        simp [assocAppend, assocFind?, hk]
      · simp [assocAppend, assocFind?, hk, hk', ih]

/-- The bucket of `key` after folding a list through `assocAppend` collects
exactly the elements keyed to `key`, in order. -/
theorem assocFind?_foldl {α : Type} (keyOf : α → Bytes) (l : List α) :
    ∀ (m : List (Bytes × List α)) (key : Bytes),
    assocFind? (l.foldl (fun idx r => assocAppend idx (keyOf r) r) m) key
      = match assocFind? m key with
        | some xs => some (xs ++ l.filter (fun r => keyOf r == key))
        | none =>
          if (l.filter (fun r => keyOf r == key)).isEmpty then none
          else some (l.filter (fun r => keyOf r == key)) := by
  induction l with
  | nil =>
    intro m key
    cases h : assocFind? m key <;> simp [h]
  | cons r l ih =>
    intro m key
    rw [List.foldl_cons]
    by_cases hk : keyOf r = key
    · subst hk
      rw [ih (assocAppend m (keyOf r) r) (keyOf r),
          assocFind?_assocAppend_same m (keyOf r) r]
      cases h : assocFind? m (keyOf r) <;> simp [h, List.filter_cons]
    · have hk' : (keyOf r == key) = false := by simpa using hk
      rw [ih (assocAppend m (keyOf r) r) key,
          assocFind?_assocAppend_ne m (keyOf r) key r (fun he => hk he.symm)]
      simp [List.filter_cons, hk']

/-- Probing the startup index returns exactly the loaded records whose
composite key matches, in encounter order. -/
theorem loadStorage_find (records : List MockResponse) (key : Bytes) :
    assocFind? (loadStorage records).responses key
      = if (records.filter (fun r => recordKey r == key)).isEmpty then none
        else some (records.filter (fun r => recordKey r == key)) := by
  have h := assocFind?_foldl recordKey records [] key
  simpa [loadStorage, assocFind?] using h

theorem mem_flatten_assocAppend {α : Type} (m : List (Bytes × List α))
    (key : Bytes) (x y : α) :
    (y ∈ ((assocAppend m key x).map (fun kv => kv.2)).flatten ↔
      y ∈ (m.map (fun kv => kv.2)).flatten ∨ y = x) := by
  induction m with
  | nil => simp [assocAppend]
  | cons kv rest ih =>
    obtain ⟨k, xs⟩ := kv
    by_cases h : k = key
    · simp only [assocAppend, if_pos h, List.map_cons, List.flatten_cons,
        List.mem_append, List.mem_singleton]
      tauto
    · simp only [assocAppend, if_neg h, List.map_cons, List.flatten_cons,
        List.mem_append]
      rw [ih]
      tauto

theorem mem_flatten_foldl_assocAppend {α : Type} (keyOf : α → Bytes) (l : List α) :
    ∀ (m : List (Bytes × List α)) (y : α),
    (y ∈ ((l.foldl (fun idx r => assocAppend idx (keyOf r) r) m).map
        (fun kv => kv.2)).flatten ↔
      y ∈ (m.map (fun kv => kv.2)).flatten ∨ y ∈ l) := by
  induction l with
  | nil => simp
  | cons r l ih =>
    intro m y
    rw [List.foldl_cons, ih (assocAppend m (keyOf r) r) y,
        mem_flatten_assocAppend m (keyOf r) r y]
    simp only [List.mem_cons]
    tauto

/-- A record is in some bucket of the startup index iff it is among the
loaded records. -/
theorem mem_loadStorage (records : List MockResponse) (y : MockResponse) :
    (y ∈ (((loadStorage records).responses).map (fun kv => kv.2)).flatten ↔
      y ∈ records) := by
  have h := mem_flatten_foldl_assocAppend recordKey records [] y
  simpa [loadStorage] using h

/-- `List.find?` on a list known to contain a satisfying element at a given
position returns a satisfying element at that position or earlier, with
everything before it failing the predicate. -/
theorem find?_first_of_mem {α : Type} (p : α → Bool) :
    ∀ (l₁ : List α) (x : α) (l₂ : List α), p x = true →
    ∃ u t v, l₁ ++ x :: l₂ = u ++ t :: v ∧ u.length ≤ l₁.length ∧ p t = true ∧
      (∀ y ∈ u, p y = false) ∧ List.find? p (l₁ ++ x :: l₂) = some t := by
  intro l₁
  induction l₁ with
  | nil =>
    intro x l₂ hx
    exact ⟨[], x, l₂, rfl, Nat.le_refl 0, hx, by simp,
      by rw [List.nil_append, List.find?_cons_of_pos _ hx]⟩
  | cons a l₁ ih =>
    intro x l₂ hx
    by_cases ha : p a = true
    · exact ⟨[], a, l₁ ++ x :: l₂, rfl, Nat.zero_le _, ha, by simp,
        by rw [List.cons_append, List.find?_cons_of_pos _ ha]⟩
    · have ha' : ¬ p a := by simpa using ha
      obtain ⟨u, t, v, heq, hlen, hpt, hup, hfind⟩ := ih x l₂ hx
      refine ⟨a :: u, t, v, by simp [heq], by simpa using hlen, hpt, ?_, ?_⟩
      · intro y hy
        rcases List.mem_cons.mp hy with hy | hy
        · subst hy
          simpa using ha'
        · exact hup y hy
      · rw [List.cons_append, List.find?_cons_of_neg _ ha', hfind]

theorem find?_append_of_none {α : Type} (p : α → Bool) (l₁ l₂ : List α)
    (h : ∀ y ∈ l₁, p y = false) :
    List.find? p (l₁ ++ l₂) = List.find? p l₂ := by
  induction l₁ with
  | nil => rfl
  | cons a t ih =>
    have ha : ¬ p a = true := by simp [h a (List.mem_cons_self a t)]
    rw [List.cons_append, List.find?_cons_of_neg _ ha]
    exact ih (fun y hy => h y (List.mem_cons_of_mem a hy))

/-- C9: FindResponseBytes normalizes its content-type argument internally,
so for every path, mock-id, method and content-type byte string `ct`, the
lookup result for `ct` equals the lookup result for `ct` with any `;`
parameter part removed and surrounding ASCII whitespace (space, tab, CR,
LF) trimmed; callers need not pre-normalize. -/
theorem C9_find_normalizes_content_type (s : MockStorage)
    (pathBytes mockIDBytes contentTypeBytes methodBytes : Bytes) :
    FindResponseBytes s pathBytes mockIDBytes contentTypeBytes methodBytes
      = FindResponseBytes s pathBytes mockIDBytes (normalizeCT contentTypeBytes)
          methodBytes := by
  unfold FindResponseBytes
  rw [normalizeCT_idem]

/-- C1 (amended): for a loaded record `r` whose stored content-type is
already normalized and whose method bytes are its non-empty method — the
invariants the codec establishes — and such that no earlier-loaded record
shares `r`'s composite index key with a case-insensitively equal method,
`FindResponseBytes` on exactly `r`'s path, mock-id, content-type and
method returns a response whose body and status code are `r`'s. -/
theorem C1_find_first_loaded_record (pre post : List MockResponse) (r : MockResponse)
    (hct : normalizeCT r.contentType = r.contentType)
    (hmb : r.methodBytes = r.method)
    (hm : r.method ≠ [])
    (hfirst : ∀ p ∈ pre, recordKey p = recordKey r →
      equalFoldBytes p.methodBytes r.method = false) :
    ∃ m, FindResponseBytes (loadStorage (pre ++ r :: post))
        r.path r.mockID r.contentType r.method = some m ∧
      m.body = r.body ∧ m.statusCode = r.statusCode := by
  refine ⟨r, ?_, rfl, rfl⟩
  unfold FindResponseBytes
  simp only [hct]
  rw [show makeIndexKey r.path r.mockID r.contentType = recordKey r from rfl,
      loadStorage_find]
  have hfilter : (pre ++ r :: post).filter (fun x => recordKey x == recordKey r)
      = pre.filter (fun x => recordKey x == recordKey r)
        ++ r :: post.filter (fun x => recordKey x == recordKey r) := by
    rw [List.filter_append, List.filter_cons]
    simp
  have hmne : r.method.isEmpty = false := by
    cases hmv : r.method with
    | nil => exact absurd hmv hm
    | cons a t => rfl
  rw [hfilter, if_neg (by simp)]
  dsimp only
  rw [if_neg (by simp), if_neg (by simp [hmne])]
  rw [find?_append_of_none _ _ _
    (fun y hy => by
      have hy' := List.mem_filter.mp hy
      exact hfirst y hy'.1 (by simpa using hy'.2))]
  rw [List.find?_cons_of_pos _ (by rw [hmb]; exact equalFoldBytes_refl r.method)]

theorem C1_witness :
    ∃ m, FindResponseBytes (loadStorage ([] ++ sampleResp :: []))
        sampleResp.path sampleResp.mockID sampleResp.contentType sampleResp.method
        = some m ∧
      m.body = sampleResp.body ∧ m.statusCode = sampleResp.statusCode :=
  C1_find_first_loaded_record [] [] sampleResp (by decide) rfl (by decide)
    (fun p hp => absurd hp (List.not_mem_nil p))

/-- C1 counterexample: when two loaded records share path, mock-id,
content-type and method, looking up the second record's own tuple returns
the first record, whose pre-serialized body and status code differ from
the second record's — refuting the claim for the second record. -/
theorem C1_counterexample :
    FindResponseBytes (loadStorage [cexRespA, cexRespB])
        cexRespB.path cexRespB.mockID cexRespB.contentType cexRespB.method
      = some cexRespA ∧
    ¬ (cexRespA.body = cexRespB.body ∧ cexRespA.statusCode = cexRespB.statusCode) := by
  constructor
  · rfl
  · intro hcontra
    exact absurd hcontra.1 (by decide)

theorem headerKeysLower_wf (l : List (Bytes × Bytes)) :
    ∀ acc : List (Bytes × Bytes), (∀ kv ∈ acc, kv.1 = toLowerASCIISimple kv.2) →
    ∀ kv ∈ l.foldl (fun m kv => (toLowerASCIISimple kv.1, kv.1) :: m) acc,
      kv.1 = toLowerASCIISimple kv.2 := by
  induction l with
  | nil => intro acc hacc; exact hacc
  | cons p t ih =>
    intro acc hacc
    rw [List.foldl_cons]
    apply ih
    intro kv hkv
    rcases List.mem_cons.mp hkv with hkv | hkv
    · rw [hkv]
    · exact hacc kv hkv

theorem buildSSEEvents_ne_nil (ext : ExternalFns) (b : Bool) (body : JValue)
    (h : buildSSEEvents ext b body ≠ []) : b = true := by
  cases b
  · exact absurd rfl h
  · rfl

/-- Structural facts the codec establishes for every successfully parsed
record: the stored content-type is a fixed point of the lookup-side
normalization, the method bytes mirror the non-empty method, the
lower-case header key table is well formed, `isSSE` holds exactly for the
event-stream content-type, and SSE events exist only for SSE records. -/
theorem parseMockRecord_shape (ext : ExternalFns) (record : JValue) (fb : Bytes)
    (r : MockResponse) (h : parseMockRecord ext record fb = some r) :
    normalizeCT r.contentType = r.contentType ∧
    r.methodBytes = r.method ∧ r.method ≠ [] ∧
    HeadersWF r ∧
    (r.isSSE = true ↔ r.contentType = eventStreamBytes) ∧
    (r.sseEvents ≠ [] → r.isSSE = true) := by
  unfold parseMockRecord at h
  split at h
  · exact Option.noConfusion h
  next fields h1 =>
  split at h
  · exact Option.noConfusion h
  next requestData h2 =>
  split at h
  · exact Option.noConfusion h
  next responseData h3 =>
  split at h
  · exact Option.noConfusion h
  next parsedPath h4 =>
  split at h
  · exact Option.noConfusion h
  next bodyBytes h5 =>
  simp only [Option.some.injEq] at h
  subst h
  refine ⟨codecContentType_normalized _, rfl, ?_, ?_, ?_, ?_⟩
  · show (if _ = ([] : Bytes) then getBytes else _) ≠ []
    split_ifs with hx
    · decide
    · exact hx
  · intro kv hkv
    exact headerKeysLower_wf _ [] (fun kv hkv => absurd hkv (List.not_mem_nil kv)) kv hkv
  · exact decide_eq_true_iff
  · exact fun hne => buildSSEEvents_ne_nil ext _ _ hne

/-- C5 (amended): for every MockResponse produced by the record codec,
`sse_events` non-empty implies `is_sse`, and `is_sse` is true exactly when
the normalized content-type equals text/event-stream.  The converse
implication fails: an event-stream record with a string body has `is_sse`
true and empty `sse_events`. -/
theorem C5_sse_events_only_if_sse (ext : ExternalFns) (record : JValue)
    (fb : Bytes) (r : MockResponse)
    (h : parseMockRecord ext record fb = some r) :
    (r.sseEvents ≠ [] → r.isSSE = true) ∧
    (r.isSSE = true ↔ r.contentType = eventStreamBytes) := by
  obtain ⟨-, -, -, -, hiff, himp⟩ := parseMockRecord_shape ext record fb r h
  exact ⟨himp, hiff⟩

theorem C5_witness :
    (cexParsedC5.sseEvents ≠ [] → cexParsedC5.isSSE = true) ∧
    (cexParsedC5.isSSE = true ↔ cexParsedC5.contentType = eventStreamBytes) :=
  C5_sse_events_only_if_sse trivExt sseStringRecord defaultMockIDBytes cexParsedC5 rfl

/-- C5 counterexample: the codec output for an event-stream record whose
body is a string has `is_sse` true and empty `sse_events`, refuting the
claimed equivalence in the only-if direction. -/
theorem C5_counterexample :
    parseMockRecord trivExt sseStringRecord defaultMockIDBytes = some cexParsedC5 ∧
    cexParsedC5.isSSE = true ∧ cexParsedC5.sseEvents = [] :=
  ⟨rfl, rfl, rfl⟩

/-- C10: for every record that passes the request/response presence check
and parses successfully, the codec applies defaults at the public
interface: a missing or non-numeric `response.status_code` yields status
code 200, and a missing or non-string `request.method` yields method
GET. -/
theorem C10_codec_defaults (ext : ExternalFns) (fb : Bytes)
    (fields requestData responseData : List (Bytes × JValue)) (r : MockResponse)
    (hreq : (lookupJ fields keyRequest).bind asObj = some requestData)
    (hresp : (lookupJ fields keyResponse).bind asObj = some responseData)
    (hstatus : (lookupJ responseData keyStatusCode).bind asNum = none)
    (hmethod : (lookupJ requestData keyMethod).bind asStr = none)
    (h : parseMockRecord ext (JValue.obj fields) fb = some r) :
    r.statusCode = 200 ∧ r.method = getBytes := by
  unfold parseMockRecord at h
  split at h
  · exact Option.noConfusion h
  next fields' h1 =>
  have hf : fields' = fields := by
    have h1' : some fields = some fields' := h1
    injection h1' with he
    exact he.symm
  subst hf
  split at h
  · exact Option.noConfusion h
  next requestData' h2 =>
  rw [hreq] at h2
  injection h2 with h2e
  subst h2e
  split at h
  · exact Option.noConfusion h
  next responseData' h3 =>
  rw [hresp] at h3
  injection h3 with h3e
  subst h3e
  split at h
  · exact Option.noConfusion h
  next parsedPath h4 =>
  split at h
  · exact Option.noConfusion h
  next bodyBytes h5 =>
  simp only [Option.some.injEq] at h
  subst h
  constructor
  · show codecStatusCode responseData = 200
    unfold codecStatusCode
    rw [hstatus]
  · show (if ((lookupJ requestData keyMethod).bind asStr).getD ([] : Bytes) = [] then getBytes
        else ((lookupJ requestData keyMethod).bind asStr).getD []) = getBytes
    rw [hmethod]
    simp

theorem C10_witness :
    parsedDefaults.statusCode = 200 ∧ parsedDefaults.method = getBytes :=
  C10_codec_defaults trivExt defaultMockIDBytes defaultsFields
    [(keyUrl, JValue.str slashBytes)] [] parsedDefaults rfl rfl rfl rfl rfl

theorem qmax_mul_of_nonneg (a b c : ℚ) (hc : 0 ≤ c) :
    qmax a b * c = qmax (a * c) (b * c) := by
  unfold qmax
  by_cases h1 : a ≤ b
  · rw [if_pos h1, if_pos (mul_le_mul_of_nonneg_right h1 hc)]
  · have hba : b ≤ a := le_of_not_le h1
    rw [if_neg h1]
    by_cases h2 : a * c ≤ b * c
    · rw [if_pos h2]
      exact le_antisymm h2 (mul_le_mul_of_nonneg_right hba hc)
    · rw [if_neg h2]

theorem maxTimestamp_scale (c : ℚ) (hc : 0 ≤ c) (events : List SSEEvent) :
    maxTimestamp (events.map (fun e => { e with timestamp := e.timestamp * c }))
      = maxTimestamp events * c := by
  induction events with
  | nil => simp [maxTimestamp, qmax]
  | cons e t ih =>
    simp only [maxTimestamp, List.map_cons, List.foldr_cons] at ih ⊢
    rw [ih, qmax_mul_of_nonneg _ _ _ hc]

/-- C3 (amended): a scenario delay override d_new applied to an SSE record
with previous delay d_old > 0 and non-empty events multiplies every event
timestamp by exactly d_new / d_old and replaces the record's delay with
d_new; the maximum event timestamp afterwards equals the previous maximum
times d_new / d_old (for d_new ≥ 0) — it approximates d_new only when the
previous maximum approximated d_old. -/
theorem C3_delay_override_scaling (r : MockResponse) (dNew : ℚ)
    (hsse : r.isSSE = true) (hevts : r.sseEvents ≠ []) (hold : 0 < r.delay) :
    (applyDelayOverride r (some dNew)).sseEvents
        = r.sseEvents.map
            (fun e => { e with timestamp := e.timestamp * (dNew / r.delay) }) ∧
    (applyDelayOverride r (some dNew)).delay = dNew ∧
    (0 ≤ dNew → maxTimestamp (applyDelayOverride r (some dNew)).sseEvents
        = maxTimestamp r.sseEvents * (dNew / r.delay)) := by
  have h1 : r.sseEvents.isEmpty = false := by
    cases hv : r.sseEvents
    · exact absurd hv hevts
    · rfl
  have hcond : (r.isSSE && !r.sseEvents.isEmpty && decide (0 < r.delay)) = true := by
    rw [hsse, h1]
    simp [hold]
  have hres : applyDelayOverride r (some dNew)
      = { r with
            sseEvents := r.sseEvents.map
              (fun e => { e with timestamp := e.timestamp * (dNew / r.delay) })
            delay := dNew } := by
    simp only [applyDelayOverride, hcond, if_true]
  refine ⟨by rw [hres], by rw [hres], fun hd => ?_⟩
  rw [hres]
  exact maxTimestamp_scale (dNew / r.delay) (div_nonneg hd (le_of_lt hold)) r.sseEvents

theorem C3_witness :
    (applyDelayOverride sseResp (some 1)).sseEvents
        = sseResp.sseEvents.map
            (fun e => { e with timestamp := e.timestamp * (1 / sseResp.delay) }) ∧
    (applyDelayOverride sseResp (some 1)).delay = 1 ∧
    (0 ≤ (1 : ℚ) → maxTimestamp (applyDelayOverride sseResp (some 1)).sseEvents
        = maxTimestamp sseResp.sseEvents * (1 / sseResp.delay)) :=
  C3_delay_override_scaling sseResp 1 rfl (List.cons_ne_nil _ _)
    (show (0 : ℚ) < 5 by norm_num)

/-- C3 counterexample: for the fixture SSE record (events at 0.1 .. 0.5
seconds, recorded delay 5) an override to delay 1 rescales the event
timestamps to 0.02 .. 0.10, so the maximum timestamp afterwards is 0.1 —
not within 1e-6 of the new delay 1. -/
theorem C3_counterexample :
    (applyDelayOverride sseResp (some 1)).delay = 1 ∧
    maxTimestamp (applyDelayOverride sseResp (some 1)).sseEvents = 1 / 10 ∧
    ¬ (1 - (1 : ℚ) / 10 ≤ 1 / 1000000) := by
  refine ⟨rfl, ?_, by norm_num⟩
  norm_num [applyDelayOverride, sseResp, sseSampleEvent, sampleResp, maxTimestamp, qmax]

/-- C4: when scenarios are loaded, request handling is mutually exclusive
with header-based lookup: the handler's answer depends only on path,
method and body (never on the x-mock-id or Accept headers), a scenario hit
is served as such, and a scenario miss is answered 404 with the JSON error
body — never by falling back to the (path, mock-id, content-type)
index. -/
theorem C4_scenario_mode_exclusive (store : MockStorage) (req req' : Request)
    (hen : store.scenariosEnabled = true)
    (hpath : req.path = req'.path) (hmethod : req.method = req'.method)
    (hbody : req.postBody = req'.postBody) :
    MockHandler store req = MockHandler store req' ∧
    (∀ r, MatchScenarioResponse store req.path req.method req.postBody = some r →
      handlerLookup store req = some r) ∧
    (MatchScenarioResponse store req.path req.method req.postBody = none →
      (MockHandler store req).statusCode = 404 ∧
      (MockHandler store req).body = errorNotFound) := by
  have hh : ∀ q : Request, q.path = req.path → q.method = req.method →
      q.postBody = req.postBody →
      handlerLookup store q
        = MatchScenarioResponse store req.path req.method req.postBody := by
    intro q hp hm hb
    simp only [handlerLookup, HasScenarios, hen, if_true]
    rw [hp, hm, hb]
  have h1 := hh req rfl rfl rfl
  have h2 := hh req' hpath.symm hmethod.symm hbody.symm
  refine ⟨?_, ?_, ?_⟩
  · unfold MockHandler
    rw [h1, h2]
  · intro r hr
    rw [h1, hr]
  · intro hnone
    unfold MockHandler
    rw [h1, hnone]
    exact ⟨rfl, rfl⟩

theorem C4_witness :
    MockHandler scenStore plainReq = MockHandler scenStore headeredScenReq ∧
    (∀ r, MatchScenarioResponse scenStore plainReq.path plainReq.method
        plainReq.postBody = some r → handlerLookup scenStore plainReq = some r) ∧
    (MatchScenarioResponse scenStore plainReq.path plainReq.method
        plainReq.postBody = none →
      (MockHandler scenStore plainReq).statusCode = 404 ∧
      (MockHandler scenStore plainReq).body = errorNotFound) :=
  C4_scenario_mode_exclusive scenStore plainReq headeredScenReq rfl rfl rfl rfl

/-- C6: on every hit, the headers the handler copies from the record to the
client response never contain — comparing names case-insensitively —
x-mock-id, content-length, content-encoding, connection, keep-alive,
proxy-authenticate, proxy-authorization, te, trailers, transfer-encoding
or upgrade: the lower-cased name of every copied header is outside the
exclusion set.  `HeadersWF` is the `headerKeysLower` invariant the codec
establishes (`parseMockRecord_shape`). -/
theorem C6_excluded_headers_never_copied (store : MockStorage) (req : Request)
    (r : MockResponse) (hr : handlerLookup store req = some r) (hwf : HeadersWF r) :
    ∀ kv ∈ (MockHandler store req).headerOps,
      excludeHeadersLower (toLowerASCIISimple kv.1) = false := by
  intro kv hkv
  unfold MockHandler at hkv
  rw [hr] at hkv
  have hkv' : kv ∈ copiedHeaders r := hkv
  unfold copiedHeaders at hkv'
  obtain ⟨a, ha, hae⟩ := List.mem_filterMap.mp hkv'
  by_cases hex : excludeHeadersLower a.1 = true
  · rw [if_pos hex] at hae
    exact Option.noConfusion hae
  · rw [if_neg hex] at hae
    injection hae with hae'
    rw [← hae']
    show excludeHeadersLower (toLowerASCIISimple a.2) = false
    rw [← hwf a ha]
    cases hb : excludeHeadersLower a.1
    · rfl
    · exact absurd hb hex

theorem C6_witness :
    excludeHeadersLower (toLowerASCIISimple hdrXCustomOrig) = false :=
  C6_excluded_headers_never_copied (loadStorage [headeredResp]) plainReq
    headeredResp rfl
    (fun kv hkv => by
      rw [List.mem_singleton.mp hkv]
      decide)
    (hdrXCustomOrig, [118])
    (List.mem_singleton.mpr rfl)

/-- C8 (amended): for a record whose response headers carry
`Content-Encoding: gzip` (header name matched case-insensitively via the
lower-cased map) and whose body is a non-empty string, the codec attempts
base64-decode, then gunzip, then JSON-parse, in that order; on full
success the decoded JSON replaces the body; failure of base64-decode or of
gunzip keeps the original string; failure of the final JSON-parse replaces
the body with the decompressed bytes as a string — not the original. -/
theorem C8_gzip_chain (ext : ExternalFns) (hl : List (Bytes × Bytes)) (s : Bytes)
    (hs : s ≠ []) (hgz : (lookupB hl contentEncodingKey).getD [] = gzipBytes) :
    (ext.base64Decode s = none → decodeGzipBody ext hl (.str s) = .str s) ∧
    (∀ bb, ext.base64Decode s = some bb → ext.gunzip bb = none →
      decodeGzipBody ext hl (.str s) = .str s) ∧
    (∀ bb dc, ext.base64Decode s = some bb → ext.gunzip bb = some dc →
      ext.jsonUnmarshal dc = none → decodeGzipBody ext hl (.str s) = .str dc) ∧
    (∀ bb dc j, ext.base64Decode s = some bb → ext.gunzip bb = some dc →
      ext.jsonUnmarshal dc = some j → decodeGzipBody ext hl (.str s) = j) := by
  refine ⟨?_, ?_, ?_, ?_⟩
  · intro hb
    simp [decodeGzipBody, hs, hgz, hb]
  · intro bb hb hg
    simp [decodeGzipBody, hs, hgz, hb, hg]
  · intro bb dc hb hg hj
    simp [decodeGzipBody, hs, hgz, hb, hg, hj]
  · intro bb dc j hb hg hj
    simp [decodeGzipBody, hs, hgz, hb, hg, hj]

theorem C8_witness :
    (gzExtOk.base64Decode abcBytes = none →
      decodeGzipBody gzExtOk gzHdrsLower (.str abcBytes) = .str abcBytes) ∧
    (∀ bb, gzExtOk.base64Decode abcBytes = some bb → gzExtOk.gunzip bb = none →
      decodeGzipBody gzExtOk gzHdrsLower (.str abcBytes) = .str abcBytes) ∧
    (∀ bb dc, gzExtOk.base64Decode abcBytes = some bb → gzExtOk.gunzip bb = some dc →
      gzExtOk.jsonUnmarshal dc = none →
      decodeGzipBody gzExtOk gzHdrsLower (.str abcBytes) = .str dc) ∧
    (∀ bb dc j, gzExtOk.base64Decode abcBytes = some bb → gzExtOk.gunzip bb = some dc →
      gzExtOk.jsonUnmarshal dc = some j →
      decodeGzipBody gzExtOk gzHdrsLower (.str abcBytes) = j) :=
  C8_gzip_chain gzExtOk gzHdrsLower abcBytes (by decide) rfl

/-- C8 counterexample: with gzip declared, a non-empty string body, base64
decode and gunzip succeeding, and JSON parsing failing, the decompressed
string replaces the body — the original string body is not kept. -/
theorem C8_counterexample :
    gzExtCex.jsonUnmarshal nopeBytes = none ∧
    decodeGzipBody gzExtCex gzHdrsLower (.str abcBytes) = .str nopeBytes ∧
    JValue.str nopeBytes ≠ JValue.str abcBytes := by
  refine ⟨rfl, rfl, ?_⟩
  intro hcontra
  injection hcontra with he
  exact absurd he (by decide)

/-- The by-path scenario map built by `LoadScenarioConfig` keys exactly the
declaration-order scenarios with the probed path. -/
theorem scenarioByPath_find (scs : List MockScenario) (p : Bytes) :
    assocFind? (scs.foldl (fun m sc => assocAppend m sc.path sc) []) p
      = if (scs.filter (fun sc => sc.path == p)).isEmpty then none
        else some (scs.filter (fun sc => sc.path == p)) := by
  have h := assocFind?_foldl (fun sc => sc.path) scs [] p
  simpa [assocFind?] using h

/-- C2: for a loaded scenario configuration, for every declared scenario
`si` and every body `b` satisfying `si`'s predicate with a request method
matching `si`'s case-insensitively, `MatchScenarioResponse` on `si`'s path
returns the response of `si` itself or of an earlier-declared scenario on
the same path that also matches; and it returns no-match only when no
scenario on that exact path matches. -/
theorem C2_scenario_match_order (s0 s' : MockStorage) (sdefs : List ScenarioDef)
    (hload : LoadScenarioConfig s0 sdefs = some s')
    (m b : Bytes) (u v : List MockScenario) (si : MockScenario)
    (hsplit : s'.scenarioOrder.filter (fun sc => sc.path == si.path) = u ++ si :: v)
    (hmethod : equalFoldBytes si.methodBytes m = true)
    (hfilter : filterAccepts si b = true) :
    (∃ u' t v',
      s'.scenarioOrder.filter (fun sc => sc.path == si.path) = u' ++ t :: v' ∧
      u'.length ≤ u.length ∧ scenarioMatches t m b = true ∧
      MatchScenarioResponse s' si.path m b = some t.response) ∧
    (∀ p' m' b', MatchScenarioResponse s' p' m' b' = none →
      ∀ sc ∈ s'.scenarioOrder, sc.path = p' → scenarioMatches sc m' b' = false) := by
  unfold LoadScenarioConfig at hload
  split at hload
  · exact Option.noConfusion hload
  split at hload
  · exact Option.noConfusion hload
  next scs hscs =>
  simp only [Option.some.injEq] at hload
  subst hload
  dsimp only at hsplit ⊢
  have hsiM : scenarioMatches si m b = true := by
    simp [scenarioMatches, methodSkip, hmethod, hfilter]
  constructor
  · obtain ⟨u', t, v', heq, hlen, hpt, hup, hfind⟩ :=
      find?_first_of_mem (fun sc => scenarioMatches sc m b) u si v hsiM
    refine ⟨u', t, v', by rw [hsplit]; exact heq, hlen, hpt, ?_⟩
    unfold MatchScenarioResponse
    dsimp only
    rw [scenarioByPath_find, hsplit]
    have hne1 : ¬ ((u ++ si :: v).isEmpty = true) := by simp
    rw [if_neg hne1]
    simp only [Option.getD_some]
    rw [if_neg hne1, hfind]
    rfl
  · intro p' m' b' hnone sc hsc hscp
    unfold MatchScenarioResponse at hnone
    dsimp only at hnone
    rw [scenarioByPath_find] at hnone
    have hmemf : sc ∈ scs.filter (fun sc => sc.path == p') :=
      List.mem_filter.mpr ⟨hsc, by simp [hscp]⟩
    by_cases hEmpty : (scs.filter (fun sc => sc.path == p')).isEmpty = true
    · rw [List.isEmpty_eq_true] at hEmpty
      rw [hEmpty] at hmemf
      exact absurd hmemf (List.not_mem_nil sc)
    · rw [if_neg hEmpty] at hnone
      simp only [Option.getD_some] at hnone
      rw [if_neg hEmpty] at hnone
      have hfnone : List.find? (fun sc => scenarioMatches sc m' b')
          (scs.filter (fun sc => sc.path == p')) = none := by
        cases hf : List.find? (fun sc => scenarioMatches sc m' b')
            (scs.filter (fun sc => sc.path == p'))
        · rfl
        · rw [hf] at hnone
          exact Option.noConfusion hnone
      have hnot := List.find?_eq_none.mp hfnone sc hmemf
      cases hb : scenarioMatches sc m' b'
      · rfl
      · exact absurd hb hnot

theorem C2_witness :
    (∃ u' t v',
      scenStore.scenarioOrder.filter (fun sc => sc.path == sampleScenario.path)
        = u' ++ t :: v' ∧
      u'.length ≤ ([] : List MockScenario).length ∧
      scenarioMatches t getBytes [] = true ∧
      MatchScenarioResponse scenStore sampleScenario.path getBytes []
        = some t.response) ∧
    (∀ p' m' b', MatchScenarioResponse scenStore p' m' b' = none →
      ∀ sc ∈ scenStore.scenarioOrder, sc.path = p' →
        scenarioMatches sc m' b' = false) :=
  C2_scenario_match_order (loadStorage []) scenStore [sampleScenarioDef] rfl
    getBytes [] [] [] sampleScenario rfl (by decide) rfl

/-- C7: with scenarios not active and the request's Accept header exactly
the accept-any value, the handler's lookup returns a record iff some
loaded record exists whose path and mock-id match the request — regardless
of its content-type — additionally filtered by method when one is
supplied.  `FindResponseBytesAnyContentType` is modelled from the spec
(its definition is not among the provided sources) as the first-match scan
over all index entries. -/
theorem C7_accept_any_lookup (records : List MockResponse) (req : Request)
    (haccept : req.accept = acceptAnyBytes) :
    ((handlerLookup (loadStorage records) req).isSome = true ↔
      ∃ r ∈ records, r.path = req.path ∧
        r.mockID = (if req.xMockID.isEmpty then defaultMockIDBytes else req.xMockID) ∧
        (req.method.isEmpty = true ∨ equalFoldBytes r.methodBytes req.method = true)) := by
  have h1 : handlerLookup (loadStorage records) req
      = FindResponseBytesAnyContentType (loadStorage records) req.path
          (if req.xMockID.isEmpty then defaultMockIDBytes else req.xMockID)
          req.method := by
    unfold handlerLookup HasScenarios
    rw [haccept]
    rw [if_neg (show ¬ ((loadStorage records).scenariosEnabled = true) by
      simp [loadStorage])]
    rw [if_neg (show ¬ (acceptAnyBytes.isEmpty = true) by decide)]
    rw [if_pos rfl]
  rw [h1]
  unfold FindResponseBytesAnyContentType
  rw [List.find?_isSome]
  constructor
  · rintro ⟨x, hx, hp⟩
    rw [mem_loadStorage] at hx
    simp only [Bool.and_eq_true, Bool.or_eq_true, beq_iff_eq] at hp
    exact ⟨x, hx, hp.1.1, hp.1.2, hp.2⟩
  · rintro ⟨x, hx, hp, hm, ho⟩
    refine ⟨x, ?_, ?_⟩
    · rw [mem_loadStorage]
      exact hx
    · simp only [Bool.and_eq_true, Bool.or_eq_true, beq_iff_eq]
      exact ⟨⟨hp, hm⟩, ho⟩

theorem C7_witness :
    ((handlerLookup (loadStorage [sampleResp]) anyReq).isSome = true ↔
      ∃ r ∈ [sampleResp], r.path = anyReq.path ∧
        r.mockID
          = (if anyReq.xMockID.isEmpty then defaultMockIDBytes else anyReq.xMockID) ∧
        (anyReq.method.isEmpty = true ∨
          equalFoldBytes r.methodBytes anyReq.method = true)) :=
  C7_accept_any_lookup [sampleResp] anyReq rfl
